import Mathlib

/-!
Verification of the NL2SQL core components: a shallow embedding of the
SQL validator, the statement extractor, the relationship inferrer
(`app/routers/query.py`), the schema registry (`app/db/dynamic_models.py`)
and the semantic answer cache (`app/utils/semantic_cache.py`).

Python strings are modelled over `List Char`; `str.strip`, `str.upper`,
`str.lower`, slicing and substring tests are reproduced for the ASCII
inputs the code manipulates.
-/

/-- Characters removed by Python `str.strip()` with no argument. -/
def pySpace (c : Char) : Bool :=
  c = ' ' || c = '\t' || c = '\n' || c = '\r' || c = '\x0b' || c = '\x0c'

/-- Python `str.strip()` on a character list. -/
def pyStripList (l : List Char) : List Char :=
  ((l.dropWhile pySpace).reverse.dropWhile pySpace).reverse

/-- Python `str.strip()`. -/
def pyStrip (s : String) : String := ⟨pyStripList s.data⟩

/-- Python `str.upper()` (ASCII, which is all the code uses). -/
def pyUpper (s : String) : String := ⟨s.data.map Char.toUpper⟩

/-- Python `str.lower()` (ASCII, which is all the code uses). -/
def pyLower (s : String) : String := ⟨s.data.map Char.toLower⟩

/-- Python `str.startswith`. -/
def pyStartsWith (s pre : String) : Bool := pre.data.isPrefixOf s.data

/-- Python `str.endswith`. -/
def pyEndsWith (s suf : String) : Bool := suf.data.isSuffixOf s.data

/-- Python slice `s[n:]`. -/
def strDrop (s : String) (n : Nat) : String := ⟨s.data.drop n⟩

/-- Python slice `s[:n]`. -/
def strTake (s : String) (n : Nat) : String := ⟨s.data.take n⟩

/-- Python `str.strip(c)` for a single character argument. -/
def pyStripChar (s : String) (c : Char) : String :=
  ⟨((s.data.dropWhile (· = c)).reverse.dropWhile (· = c)).reverse⟩

/-- Whether `pat` occurs as a contiguous sublist of `l`
(Python `pat in s` on strings). -/
def listContainsSub (pat : List Char) : List Char → Bool
  | [] => pat.isEmpty
  | c :: t => pat.isPrefixOf (c :: t) || listContainsSub pat t

/-- Python `pat in s` on strings. -/
def strContainsSub (s pat : String) : Bool := listContainsSub pat.data s.data

/-- Decidable equality for `Except`, so concrete runs of the fallible
operations can be checked by `decide`. -/
instance {ε α : Type} [DecidableEq ε] [DecidableEq α] : DecidableEq (Except ε α) :=
  fun a b =>
    match a, b with
    | .ok x, .ok y =>
      if h : x = y then .isTrue (by rw [h]) else .isFalse (by simp [h])
    | .error x, .error y =>
      if h : x = y then .isTrue (by rw [h]) else .isFalse (by simp [h])
    | .ok _, .error _ => .isFalse (by simp)
    | .error _, .ok _ => .isFalse (by simp)

/-! ### `validate_sql` (`app/routers/query.py`, lines 15-24) -/

/-- `BLOCKED_SQL_KEYWORDS` from `app/routers/query.py`. -/
def BLOCKED_SQL_KEYWORDS : List String :=
  ["DROP", "DELETE", "UPDATE", "ALTER", "TRUNCATE", "CREATE", "INSERT"]

/-- `validate_sql` from `app/routers/query.py`: strip, upper-case, require a
`SELECT` prefix, then reject the first blocked keyword occurring as
`" KEYWORD "` in the space-padded upper-cased text.  `Except.error` models
the raised `ValueError`. -/
def validate_sql (sql : String) : Except String Unit :=
  let sql_stripped := pyStrip sql
  let sql_upper := pyUpper sql_stripped
  if pyStartsWith sql_upper "SELECT" = false then
    .error "Only SELECT queries are allowed."
  else
    match BLOCKED_SQL_KEYWORDS.find?
        (fun kw => strContainsSub (" " ++ sql_upper ++ " ") (" " ++ kw ++ " ")) with
    | some kw => .error ("Query contains blocked SQL keyword: " ++ kw)
    | none => .ok ()

/-- The call site (`query_table`, lines 154-155) validates `sql` and then
executes that very string: acceptance passes the statement on unchanged. -/
def validate_and_pass (sql : String) : Except String String :=
  (validate_sql sql).map (fun _ => sql)

/-! ### `extract_sql_statement` (`app/routers/query.py`, lines 26-43) -/

/-- Characters of `l` strictly before the first occurrence of `pat`; all of
`l` when `pat` does not occur.  Models Python `s.split(pat, 1)[0]` and the
per-line truncation done by `re.sub(r'--.*?$', '', s, flags=re.MULTILINE)`. -/
def truncAtFirst (pat : List Char) : List Char → List Char
  | [] => []
  | c :: t => if pat.isPrefixOf (c :: t) then [] else c :: truncAtFirst pat t

/-- Prepend a character to the first line of a line list. -/
def consHead (c : Char) : List (List Char) → List (List Char)
  | [] => [[c]]
  | h :: r => (c :: h) :: r

/-- Python `s.split('\n')`. -/
def splitLines : List Char → List (List Char)
  | [] => [[]]
  | c :: t => if c = '\n' then [] :: splitLines t else consHead c (splitLines t)

/-- Python `'\n'.join(lines)`. -/
def joinLines : List (List Char) → List Char
  | [] => []
  | [l] => l
  | l :: ls => l ++ '\n' :: joinLines ls

/-- The comment stripping `re.sub(r'--.*?$', '', text_out, flags=re.MULTILINE)`
(line 36): each line is truncated at its first `--`. -/
def removeLineComments (s : String) : String :=
  ⟨joinLines ((splitLines s.data).map (truncAtFirst ['-', '-']))⟩

/-- Line 29-30: `if text_out.startswith("```sql"): text_out = text_out[6:].strip()`. -/
def fenceStage1 (t0 : String) : String :=
  if pyStartsWith t0 "```sql" then pyStrip (strDrop t0 6) else t0

/-- Line 31-32: `if text_out.startswith("```"): text_out = text_out[3:].strip()`. -/
def fenceStage2 (t1 : String) : String :=
  if pyStartsWith t1 "```" then pyStrip (strDrop t1 3) else t1

/-- Line 33-34: `if text_out.endswith("```"): text_out = text_out[:-3].strip()`. -/
def fenceStage3 (t2 : String) : String :=
  if pyEndsWith t2 "```" then pyStrip (strTake t2 (t2.data.length - 3)) else t2

/-- Line 35: `text_out = text_out.strip("`").strip()`. -/
def backtickStage (t3 : String) : String := pyStrip (pyStripChar t3 '`')

/-- Lines 27-36 of `extract_sql_statement`: strip, drop a leading
```` ```sql ```` or ```` ``` ```` fence, drop a trailing fence, strip stray
backticks, and remove `--` line comments. -/
def cleanedText (llm_response : String) : String :=
  removeLineComments
    (backtickStage (fenceStage3 (fenceStage2 (fenceStage1 (pyStrip llm_response)))))

/-- `extract_sql_statement` from `app/routers/query.py` (lines 26-43): after
cleaning, keep up to the first semicolon (re-appending it), else the first
`"\n\n"`-separated paragraph. -/
def extract_sql_statement (llm_response : String) : String :=
  let t5 := cleanedText llm_response
  if strContainsSub t5 ";" then
    ⟨pyStripList (truncAtFirst [';'] t5.data) ++ [';']⟩
  else
    ⟨pyStripList (truncAtFirst ['\n', '\n'] t5.data)⟩

/-- Whether a line's trimmed, upper-cased form starts with `SELECT`
(the scan described by the spec's Stage B). -/
def lineStartsSelect (l : List Char) : Bool :=
  pyStartsWith (pyUpper (pyStrip ⟨l⟩)) "SELECT"

/-- Whether no line of `s` has a trimmed, case-insensitive `SELECT` prefix. -/
def noSelectLine (s : String) : Bool :=
  (splitLines s.data).all (fun l => !(lineStartsSelect l))

/-! ### Schema registry (`app/db/dynamic_models.py`) -/

/-- A stored registry entry: the caller's column mapping (name to type tag,
in declaration order) plus the creation timestamp
(`{'columns': columns, 'created_at': datetime.utcnow().isoformat()}`). -/
structure TableSchema where
  columns : List (String × String)
  created_at : String
deriving DecidableEq, Repr

/-- Contents of the snapshot file `data/schema_cache.json`: either a valid
serialized mapping, or text that does not parse back as one (an empty
truncated file or a partially written dump). -/
inductive DiskContents where
  | snapshot (entries : List (String × TableSchema))
  | corrupt
deriving DecidableEq, Repr

/-- The registry state: `self.cache` (the in-memory dict, keyed by canonical
lowercase name, insertion-ordered) and the persisted snapshot file
`data/schema_cache.json`. -/
structure SchemaCacheState where
  mem : List (String × TableSchema)
  disk : DiskContents
deriving DecidableEq, Repr

/-- Outcome of one attempted snapshot write: `json.dump` into the file
opened with `open(self.cache_file, 'w')` either completes, or the `open`
itself raises (file untouched), or the dump raises after `'w'` has already
truncated the file (previous snapshot destroyed). -/
inductive WriteOutcome where
  | ok
  | failAtOpen
  | failMidWrite
deriving DecidableEq, Repr

/-- `SchemaCache._load_cache`: parse the snapshot file, treating unreadable
JSON (`json.JSONDecodeError`) as the empty mapping. -/
def load_cache : DiskContents → List (String × TableSchema)
  | .snapshot entries => entries
  | .corrupt => []

/-- Python dict lookup on the association list. -/
def lookupA (k : String) : List (String × TableSchema) → Option TableSchema
  | [] => none
  | p :: t => if p.1 = k then some p.2 else lookupA k t

/-- Python dict assignment `d[k] = v`: replace in place, else append. -/
def insertA (k : String) (v : TableSchema) :
    List (String × TableSchema) → List (String × TableSchema)
  | [] => [(k, v)]
  | p :: t => if p.1 = k then (k, v) :: t else p :: insertA k v t

/-- `SchemaCache.get_table_schema`: `self.cache.get(table_name.lower())`. -/
def get_table_schema (st : SchemaCacheState) (table_name : String) : Option TableSchema :=
  lookupA (pyLower table_name) st.mem

/-- `SchemaCache.table_exists`: `table_name.lower() in self.cache`. -/
def table_exists (st : SchemaCacheState) (table_name : String) : Bool :=
  (lookupA (pyLower table_name) st.mem).isSome

/-- `SchemaCache.save_cache`: `open(self.cache_file, 'w')` then
`json.dump(self.cache, f)`.  On success the snapshot is replaced; if `open`
raises the file is untouched; if the dump raises after `'w'` has truncated
the file, the previous snapshot is corrupted, not preserved.  The raised
OSError is modelled as `Except.error`; the method changes no in-memory
state. -/
def save_cache (st : SchemaCacheState) :
    WriteOutcome → Except String Unit × SchemaCacheState
  | .ok => (.ok (), { st with disk := .snapshot st.mem })
  | .failAtOpen => (.error "storage write failed", st)
  | .failMidWrite => (.error "storage write failed", { st with disk := .corrupt })

/-- `SchemaCache.update_table_schema`: lower-case the name, assign the new
entry into `self.cache`, then `save_cache()`.  The clock
(`datetime.utcnow().isoformat()`) is passed in as `now`. -/
def update_table_schema (st : SchemaCacheState) (table_name : String)
    (columns : List (String × String)) (now : String) (w : WriteOutcome) :
    Except String Unit × SchemaCacheState :=
  let key := pyLower table_name
  save_cache { st with mem := insertA key ⟨columns, now⟩ st.mem } w

/-- `TYPE_MAPPING` from `app/db/dynamic_models.py` (values name the
SQLAlchemy column types). -/
def TYPE_MAPPING : List (String × String) :=
  [("int", "Integer"), ("integer", "Integer"), ("str", "String"),
   ("text", "Text"), ("float", "Float"), ("date", "Date"),
   ("datetime", "DateTime")]

/-- `TYPE_MAPPING.get(col_type.lower(), String)`. -/
def map_type (col_type : String) : String :=
  match TYPE_MAPPING.find? (fun p => p.1 = pyLower col_type) with
  | some p => p.2
  | none => "String"

/-- The column set of the dynamically created SQLAlchemy model
(`create_dynamic_model`, lines 96-109): a synthetic primary-key `id` column
first, then the caller's columns with `id` (case-insensitively) skipped.
The `__tablename__`/`__table_args__` metadata entries are not columns and
are omitted. -/
def create_model_columns (columns : List (String × String)) : List (String × String) :=
  ("id", "Integer") ::
    (columns.filter (fun p => pyLower p.1 ≠ "id")).map (fun p => (p.1, map_type p.2))

/-- `create_dynamic_model` (lines 85-128): build the model columns, create
the table (assumed to succeed), then `update_table_schema(table_name,
columns)` with the caller's original columns; a failure there is re-raised. -/
def create_dynamic_model (st : SchemaCacheState) (table_name : String)
    (columns : List (String × String)) (now : String) (w : WriteOutcome) :
    Except String (List (String × String)) × SchemaCacheState :=
  match update_table_schema st table_name columns now w with
  | (.ok _, st2) => (.ok (create_model_columns columns), st2)
  | (.error e, st2) => (.error e, st2)

/-! ### `infer_relationships` (`app/routers/query.py`, lines 71-82) -/

/-- Line 72: `[(tbl, schema_cache.get_table_schema(tbl)) for tbl in
table_names]`.  A missing schema makes the Python loop raise on the
`['columns']` access, modelled as `none`. -/
def collectSchemas (st : SchemaCacheState) : List String → Option (List (String × TableSchema))
  | [] => some []
  | t :: ts =>
    match get_table_schema st t, collectSchemas st ts with
    | some s, some rest => some ((t, s) :: rest)
    | _, _ => none

/-- The nested loops of `infer_relationships` (lines 73-82) over the resolved
`(tbl, schema)` pairs: for each source column ending in `_id`, for each other
requested table having an `id` column whose name matches the naive plural
`col[:-3] + "s"` case-insensitively, emit `f"{src_tbl}.{col} → {dst_tbl}.id"`. -/
def inferCode (schemas : List (String × TableSchema)) : List String :=
  schemas.flatMap (fun srcp =>
    srcp.2.columns.flatMap (fun colp =>
      if pyEndsWith colp.1 "_id" then
        schemas.flatMap (fun dstp =>
          if dstp.1 ≠ srcp.1 ∧ dstp.2.columns.any (fun c => c.1 = "id") then
            if pyLower (strTake colp.1 (colp.1.data.length - 3) ++ "s") = pyLower dstp.1 then
              [srcp.1 ++ "." ++ colp.1 ++ " → " ++ dstp.1 ++ ".id"]
            else []
          else [])
      else []))

/-- `infer_relationships`: resolve the schemas, then run the loops. -/
def infer_relationships (st : SchemaCacheState) (table_names : List String) :
    Option (List String) :=
  (collectSchemas st table_names).map inferCode

/-- The claim's own description of the inferrer, written from its words:
edges `T.C → U.id` such that column `C` of `T` ends with `_id`, the
candidate obtained by stripping `_id` and appending `s` equals `U`'s name
case-insensitively, `U` is a different table of the requested set, and `U`'s
columns contain one literally named `id`; emission follows input table order
then column declaration order. -/
def inferSpec (schemas : List (String × TableSchema)) : List String :=
  schemas.flatMap (fun tp =>
    (tp.2.columns.map Prod.fst).flatMap (fun c =>
      if pyEndsWith c "_id" then
        schemas.flatMap (fun up =>
          if pyLower (strTake c (c.data.length - 3) ++ "s") = pyLower up.1 ∧
              up.1 ≠ tp.1 ∧ ((up.2.columns.map Prod.fst).contains "id") = true then
            [tp.1 ++ "." ++ c ++ " → " ++ up.1 ++ ".id"]
          else [])
      else []))

/-! ### Semantic answer cache (`app/utils/semantic_cache.py`)

The embedding model is an external collaborator: it is passed in as an
arbitrary function `embed : String → List ℚ` (the spec assumes it is
deterministic for identical input, which a function is by construction).
FAISS `IndexFlatL2` is modelled by the list of stored vectors in insertion
order; `index.search(vec, k)` returns the `k` nearest vectors by squared L2
distance in ascending order (ties resolved by insertion order; the `-1`
paddings FAISS emits when fewer than `k` vectors exist are simply absent
here, matching the `if idx < 0: continue` skip in the loop). -/

/-- Result rows, round-tripped verbatim (each row a list of column/value
pairs as produced by `execute_sql_query`). -/
abbrev Rows := List (List (String × String))

/-- One cache entry as appended by `SemanticNL2SQLCache.add`. -/
structure CacheEntry where
  nl_query : String
  sql : String
  result : Rows
  explanation : Option String
  explain_flag : Bool
deriving DecidableEq, Repr

/-- The cache state: the FAISS index vectors and the parallel entry store. -/
structure SemanticCache where
  index : List (List ℚ)
  cache : List CacheEntry
deriving DecidableEq, Repr

/-- `SemanticNL2SQLCache.__init__`: empty index, empty store. -/
def emptyCache : SemanticCache := ⟨[], []⟩

/-- `SemanticNL2SQLCache._cache_key`: append the mode marker in explain
mode. -/
def cacheKey (nl_query : String) (explain_flag : Bool) : String :=
  if explain_flag then nl_query ++ " [EXPLAIN]" else nl_query

/-- `SemanticNL2SQLCache.add`: embed the mode-augmented key, append the
vector to the index and the entry to the store. -/
def addCache (embed : String → List ℚ) (c : SemanticCache) (nl_query sql : String)
    (result : Rows) (explanation : Option String) (explain_flag : Bool) : SemanticCache :=
  { index := c.index ++ [embed (cacheKey nl_query explain_flag)],
    cache := c.cache ++ [⟨nl_query, sql, result, explanation, explain_flag⟩] }

/-- Squared L2 distance, as returned by FAISS `IndexFlatL2`. -/
def sqDist (u v : List ℚ) : ℚ := (List.zipWith (fun a b => (a - b) ^ 2) u v).sum

/-- Stable insertion of an (index, distance) pair into a distance-sorted
list. -/
def insertByDist (x : Nat × ℚ) : List (Nat × ℚ) → List (Nat × ℚ)
  | [] => [x]
  | y :: t => if x.2 ≤ y.2 then x :: y :: t else y :: insertByDist x t

/-- Stable sort of (index, distance) pairs by ascending distance. -/
def sortByDist : List (Nat × ℚ) → List (Nat × ℚ)
  | [] => []
  | x :: t => insertByDist x (sortByDist t)

/-- `index.search(vec, k)`: the `k` nearest stored vectors with their
squared distances, ascending. -/
def knn (index : List (List ℚ)) (v : List ℚ) (k : Nat) : List (Nat × ℚ) :=
  (sortByDist (index.enum.map (fun p => (p.1, sqDist v p.2)))).take k

/-- The candidate loop of `SemanticNL2SQLCache.search` (lines 35-42): skip
entries whose stored mode differs, return the first whose similarity
`1 / (1 + d)` is at or above the threshold. -/
def scanCandidates (cache : List CacheEntry) (explain_flag : Bool) (threshold : ℚ) :
    List (Nat × ℚ) → Option CacheEntry
  | [] => none
  | (idx, dist) :: rest =>
    match cache[idx]? with
    | none => none
    | some entry =>
      if entry.explain_flag != explain_flag then
        scanCandidates cache explain_flag threshold rest
      else if threshold ≤ 1 / (1 + dist) then some entry
      else scanCandidates cache explain_flag threshold rest

/-- `SemanticNL2SQLCache.search` (defaults `threshold=0.87`, `k=3` at the
call site): miss on an empty index, otherwise scan the `k` nearest. -/
def searchCache (embed : String → List ℚ) (c : SemanticCache) (nl_query : String)
    (explain_flag : Bool) (threshold : ℚ) (k : Nat) : Option CacheEntry :=
  if c.index.length = 0 then none
  else
    scanCandidates c.cache explain_flag threshold
      (knn c.index (embed (cacheKey nl_query explain_flag)) k)

/-- Whether a candidate (index, squared distance) pair qualifies for return:
its stored entry exists, carries the requested mode, and its similarity
`1/(1+d)` is at or above the threshold. -/
def qualifiesB (store : List CacheEntry) (explain_flag : Bool) (threshold : ℚ)
    (p : Nat × ℚ) : Bool :=
  match store[p.1]? with
  | some entry => (entry.explain_flag == explain_flag) && decide (threshold ≤ 1 / (1 + p.2))
  | none => false

/-- An embedding giving the stored plain entry (key `"p"`) squared distance
exactly `13/87` from the query key `"q"`, so similarity is exactly
`1/(1 + 13/87) = 87/100`: `(33² + 5² + 4² + 1²)/87² = 1131/7569 = 13/87`. -/
def embA : String → List ℚ :=
  fun s => if s = "p" then [0, 0, 0, 0] else [33/87, 5/87, 4/87, 1/87]

/-- An embedding giving squared distance `14/87`
(`(34² + 7² + 3² + 2²)/87² = 1218/7569`), so similarity `87/101`, strictly
below the `87/100` threshold. -/
def embB : String → List ℚ :=
  fun s => if s = "p" then [0, 0, 0, 0] else [34/87, 7/87, 3/87, 2/87]

/-- An embedding placing the plain entry (key `"p"`) at squared distance
`1/100` from the query while three explain-mode entries sit at distance 0. -/
def embedTenth : String → List ℚ :=
  fun s => if s = "p" then [1/10, 0, 0, 0] else [0, 0, 0, 0]

/-- A cache holding three explain-mode entries and then one plain entry,
built through `add` as the application does. -/
def crowdedCache : SemanticCache :=
  addCache embedTenth
    (addCache embedTenth
      (addCache embedTenth
        (addCache embedTenth emptyCache "a" "SA" [] none true)
        "b" "SB" [] none true)
      "c" "SC" [] none true)
    "p" "SP" [] none false

/-! ### Theorems -/

example : validate_sql "SELECT * FROM orders" = .ok () := by decide

example : validate_sql "UPDATE t SET x=1" =
    .error "Only SELECT queries are allowed." := by decide

example : validate_sql "SELECT * FROM orders; DROP TABLE orders;" =
    .error "Query contains blocked SQL keyword: DROP" := by decide

example : validate_sql "" = .error "Only SELECT queries are allowed." := by decide

example : validate_sql "SELECT * FROM t;DROP TABLE u" = .ok () := by decide

/-- C1: validation accepts a statement iff its trimmed upper-cased form
starts with `SELECT` and the space-padded form of that trimmed upper-cased
text contains no `" KEYWORD "` occurrence for a blocked keyword; an empty or
non-`SELECT` statement is rejected with the "not a read query" error, a
whole-word keyword match is rejected with an error naming that (first
matching) keyword, and an accepted statement is passed on unmodified. -/
theorem validate_sql_accepts_iff (s : String) :
    ((validate_sql s = .ok ()) ↔
      (pyStartsWith (pyUpper (pyStrip s)) "SELECT" = true ∧
        ∀ kw ∈ BLOCKED_SQL_KEYWORDS,
          strContainsSub (" " ++ pyUpper (pyStrip s) ++ " ") (" " ++ kw ++ " ") = false)) ∧
    (pyStartsWith (pyUpper (pyStrip s)) "SELECT" = false →
      validate_sql s = .error "Only SELECT queries are allowed.") ∧
    (∀ kw, BLOCKED_SQL_KEYWORDS.find?
        (fun kw2 => strContainsSub (" " ++ pyUpper (pyStrip s) ++ " ") (" " ++ kw2 ++ " "))
          = some kw →
      pyStartsWith (pyUpper (pyStrip s)) "SELECT" = true →
      validate_sql s = .error ("Query contains blocked SQL keyword: " ++ kw) ∧
        kw ∈ BLOCKED_SQL_KEYWORDS ∧
        strContainsSub (" " ++ pyUpper (pyStrip s) ++ " ") (" " ++ kw ++ " ") = true) ∧
    (validate_sql s = .ok () → validate_and_pass s = .ok s) := by
  have hlets : validate_sql s =
      (if pyStartsWith (pyUpper (pyStrip s)) "SELECT" = false then
        .error "Only SELECT queries are allowed."
      else
        match BLOCKED_SQL_KEYWORDS.find?
            (fun kw => strContainsSub (" " ++ pyUpper (pyStrip s) ++ " ") (" " ++ kw ++ " ")) with
        | some kw => .error ("Query contains blocked SQL keyword: " ++ kw)
        | none => .ok ()) := rfl
  refine ⟨?_, ?_, ?_, ?_⟩
  · -- the acceptance characterization
    rw [hlets]
    cases hb : pyStartsWith (pyUpper (pyStrip s)) "SELECT" with
    | false => simp
    | true =>
      simp only [Bool.true_eq_false, if_false]
      cases hfind : BLOCKED_SQL_KEYWORDS.find?
          (fun kw => strContainsSub (" " ++ pyUpper (pyStrip s) ++ " ") (" " ++ kw ++ " ")) with
      | none =>
        simp only [true_and]
        constructor
        · intro _ kw hkw
          have h := List.find?_eq_none.mp hfind kw hkw
          simpa using h
        · intro _; trivial
      | some kw0 =>
        constructor
        · intro h; simp at h
        · rintro ⟨_, hall⟩
          have hmem := List.mem_of_find?_eq_some hfind
          have hp := List.find?_some hfind
          have h0 := hall kw0 hmem
          rw [h0] at hp
          cases hp
  · intro hb
    rw [hlets, if_pos hb]
  · intro kw hfind hb
    refine ⟨?_, List.mem_of_find?_eq_some hfind, by simpa using List.find?_some hfind⟩
    rw [hlets, hfind]
    simp [hb]
  · intro h
    unfold validate_and_pass
    rw [h]
    rfl

/-- Witness for C1 at concrete inputs: a keyword reached through the
characterization, a non-`SELECT` rejection, and acceptance passing the
statement through unchanged. -/
theorem validate_sql_accepts_iff_witness :
    validate_sql "SELECT a FROM t WHERE b IN (SELECT c FROM u)" = .ok () ∧
    validate_sql "  drop table t" = .error "Only SELECT queries are allowed." ∧
    validate_sql "SELECT * FROM t; DELETE FROM t" =
      .error "Query contains blocked SQL keyword: DELETE" ∧
    validate_and_pass "SeLeCt 1" = .ok "SeLeCt 1" := by
  refine ⟨?_, ?_, ?_, ?_⟩
  · exact (validate_sql_accepts_iff "SELECT a FROM t WHERE b IN (SELECT c FROM u)").1.mpr
      (by constructor <;> decide)
  · exact (validate_sql_accepts_iff "  drop table t").2.1 (by decide)
  · exact ((validate_sql_accepts_iff "SELECT * FROM t; DELETE FROM t").2.2.1 "DELETE"
      (by decide) (by decide)).1
  · exact (validate_sql_accepts_iff "SeLeCt 1").2.2.2 (by decide)

example : extract_sql_statement "```sql\nSELECT * FROM t;\nExtra commentary\n```"
    = "SELECT * FROM t;" := by decide

example : extract_sql_statement "foo" = "foo" := by decide

example : extract_sql_statement "SELECT 1" = "SELECT 1" := by decide

/-! Character-membership lemmas: every cleaning stage only drops characters
(up to the newline separators re-inserted by the line join). -/

theorem data_mk (l : List Char) : (String.mk l).data = l := rfl

theorem mem_of_mem_dropWhile {α : Type} {p : α → Bool} {a : α} :
    ∀ {l : List α}, a ∈ l.dropWhile p → a ∈ l := by
  intro l
  induction l with
  | nil => intro h; simp at h
  | cons x t ih =>
    intro h
    by_cases hp : p x
    · simp only [List.dropWhile, hp] at h
      exact List.mem_cons_of_mem _ (ih h)
    · have hpf : p x = false := by revert hp; cases p x <;> simp
      simp only [List.dropWhile, hpf] at h
      exact h

theorem pyStripList_subset {a : Char} {l : List Char} (h : a ∈ pyStripList l) : a ∈ l := by
  have h1 : a ∈ ((l.dropWhile pySpace).reverse.dropWhile pySpace).reverse := h
  rw [List.mem_reverse] at h1
  have h2 := mem_of_mem_dropWhile h1
  rw [List.mem_reverse] at h2
  exact mem_of_mem_dropWhile h2

theorem mem_pyStrip {a : Char} {s : String} (h : a ∈ (pyStrip s).data) : a ∈ s.data :=
  pyStripList_subset h

theorem mem_truncAtFirst {pat : List Char} {a : Char} :
    ∀ {l : List Char}, a ∈ truncAtFirst pat l → a ∈ l := by
  intro l
  induction l with
  | nil => intro h; simp [truncAtFirst] at h
  | cons c t ih =>
    intro h
    by_cases hp : pat.isPrefixOf (c :: t)
    · simp [truncAtFirst, hp] at h
    · simp only [truncAtFirst, if_neg hp, List.mem_cons] at h
      rcases h with h | h
      · rw [h]; exact List.mem_cons_self c t
      · exact List.mem_cons_of_mem _ (ih h)

theorem splitLines_ne_nil : ∀ (l : List Char), splitLines l ≠ [] := by
  intro l
  induction l with
  | nil => simp [splitLines]
  | cons c t ih =>
    by_cases hc : c = '\n'
    · simp [splitLines, hc]
    · simp only [splitLines, if_neg hc]
      cases hs : splitLines t with
      | nil => simp [consHead]
      | cons h r => simp [consHead]

theorem mem_splitLines {a : Char} :
    ∀ {l line : List Char}, line ∈ splitLines l → a ∈ line → a ∈ l := by
  intro l
  induction l with
  | nil =>
    intro line hl ha
    simp [splitLines] at hl
    subst hl; simp at ha
  | cons c t ih =>
    intro line hl ha
    by_cases hc : c = '\n'
    · simp only [splitLines, if_pos hc] at hl
      rcases List.mem_cons.mp hl with h | h
      · subst h; simp at ha
      · exact List.mem_cons_of_mem _ (ih h ha)
    · simp only [splitLines, if_neg hc] at hl
      cases hs : splitLines t with
      | nil => exact absurd hs (splitLines_ne_nil t)
      | cons h2 r =>
        rw [hs] at hl
        simp only [consHead] at hl
        rcases List.mem_cons.mp hl with h | h
        · subst h
          rcases List.mem_cons.mp ha with h3 | h3
          · rw [h3]; exact List.mem_cons_self c t
          · have hm : h2 ∈ splitLines t := by rw [hs]; exact List.mem_cons_self _ _
            exact List.mem_cons_of_mem _ (ih hm h3)
        · have hm : line ∈ splitLines t := by rw [hs]; exact List.mem_cons_of_mem _ h
          exact List.mem_cons_of_mem _ (ih hm ha)

theorem mem_joinLines {a : Char} :
    ∀ {ls : List (List Char)}, a ∈ joinLines ls → a = '\n' ∨ ∃ l ∈ ls, a ∈ l := by
  intro ls
  induction ls with
  | nil => intro h; simp [joinLines] at h
  | cons l ls ih =>
    intro h
    cases ls with
    | nil =>
      right
      exact ⟨l, List.mem_cons_self _ _, by simpa [joinLines] using h⟩
    | cons l2 ls2 =>
      simp only [joinLines] at h
      rcases List.mem_append.mp h with h | h
      · right; exact ⟨l, List.mem_cons_self _ _, h⟩
      · rcases List.mem_cons.mp h with h | h
        · left; exact h
        · rcases ih h with h | ⟨l3, hl3, ha3⟩
          · left; exact h
          · right; exact ⟨l3, List.mem_cons_of_mem _ hl3, ha3⟩

theorem mem_removeLineComments {a : Char} {s : String}
    (h : a ∈ (removeLineComments s).data) : a = '\n' ∨ a ∈ s.data := by
  have h2 : a ∈ joinLines ((splitLines s.data).map (truncAtFirst ['-', '-'])) := h
  rcases mem_joinLines h2 with h1 | ⟨l, hl, ha⟩
  · left; exact h1
  · rcases List.mem_map.mp hl with ⟨line, hline, hq⟩
    right
    rw [← hq] at ha
    exact mem_splitLines hline (mem_truncAtFirst ha)

theorem mem_pyStripChar {a c : Char} {s : String}
    (h : a ∈ (pyStripChar s c).data) : a ∈ s.data := by
  have h1 : a ∈ ((s.data.dropWhile (· = c)).reverse.dropWhile (· = c)).reverse := h
  rw [List.mem_reverse] at h1
  have h2 := mem_of_mem_dropWhile h1
  rw [List.mem_reverse] at h2
  exact mem_of_mem_dropWhile h2

theorem mem_fenceStage1 {a : Char} {t : String}
    (h : a ∈ (fenceStage1 t).data) : a ∈ t.data := by
  unfold fenceStage1 at h
  by_cases hc : pyStartsWith t "```sql"
  · rw [if_pos hc] at h
    have h2 : a ∈ t.data.drop 6 := mem_pyStrip h
    exact List.mem_of_mem_drop h2
  · rwa [if_neg hc] at h

theorem mem_fenceStage2 {a : Char} {t : String}
    (h : a ∈ (fenceStage2 t).data) : a ∈ t.data := by
  unfold fenceStage2 at h
  by_cases hc : pyStartsWith t "```"
  · rw [if_pos hc] at h
    have h2 : a ∈ t.data.drop 3 := mem_pyStrip h
    exact List.mem_of_mem_drop h2
  · rwa [if_neg hc] at h

theorem mem_fenceStage3 {a : Char} {t : String}
    (h : a ∈ (fenceStage3 t).data) : a ∈ t.data := by
  unfold fenceStage3 at h
  by_cases hc : pyEndsWith t "```"
  · rw [if_pos hc] at h
    have h2 : a ∈ t.data.take (t.data.length - 3) := mem_pyStrip h
    exact List.mem_of_mem_take h2
  · rwa [if_neg hc] at h

theorem mem_backtickStage {a : Char} {t : String}
    (h : a ∈ (backtickStage t).data) : a ∈ t.data :=
  mem_pyStripChar (mem_pyStrip h)

theorem mem_cleanedText {a : Char} {s : String}
    (h : a ∈ (cleanedText s).data) : a = '\n' ∨ a ∈ s.data := by
  unfold cleanedText at h
  rcases mem_removeLineComments h with h1 | h1
  · left; exact h1
  · right
    exact mem_pyStrip (mem_fenceStage1 (mem_fenceStage2 (mem_fenceStage3
      (mem_backtickStage h1))))

theorem listContainsSub_single {c : Char} :
    ∀ {l : List Char}, listContainsSub [c] l = true ↔ c ∈ l := by
  intro l
  induction l with
  | nil => simp [listContainsSub]
  | cons x t ih =>
    simp [listContainsSub, List.isPrefixOf, ih]

theorem strContainsSub_semi_iff {s : String} :
    strContainsSub s ";" = true ↔ ';' ∈ s.data := by
  have h : strContainsSub s ";" = listContainsSub [';'] s.data := rfl
  rw [h, listContainsSub_single]

theorem mem_of_single_isPrefixOf {c : Char} :
    ∀ {l : List Char}, [c].isPrefixOf l = true → c ∈ l := by
  intro l
  cases l with
  | nil => intro h; simp [List.isPrefixOf] at h
  | cons x t =>
    intro h
    simp [List.isPrefixOf] at h
    rw [h]; exact List.mem_cons_self x t

theorem endsWith_semi_mem {s : String} (h : pyEndsWith s ";" = true) : ';' ∈ s.data := by
  have h1 : List.isSuffixOf [';'] s.data = true := h
  rw [List.isSuffixOf] at h1
  have h2 : [';'].isPrefixOf s.data.reverse = true := h1
  have h3 := mem_of_single_isPrefixOf h2
  rwa [List.mem_reverse] at h3

/-- C7 counterexample: input with a `SELECT` line and no terminator, where
the extracted statement does not end with a semicolon (the code appends
nothing in the no-semicolon branch). -/
theorem extract_no_terminator_counterexample :
    (¬ noSelectLine "SELECT 1" = true) ∧
    strContainsSub "SELECT 1" ";" = false ∧
    pyEndsWith (extract_sql_statement "SELECT 1") ";" = false := by
  refine ⟨by decide, by decide, by decide⟩

/-- C7 amended: when the raw text contains no semicolon, extraction returns
the first blank-line-separated paragraph of the cleaned text, trimmed, and
does not append a terminator: the result contains no semicolon at all, so
in particular it does not end with one. -/
theorem extract_sql_statement_no_terminator (raw : String)
    (h : strContainsSub raw ";" = false) :
    extract_sql_statement raw
        = ⟨pyStripList (truncAtFirst ['\n', '\n'] (cleanedText raw).data)⟩ ∧
    strContainsSub (extract_sql_statement raw) ";" = false ∧
    pyEndsWith (extract_sql_statement raw) ";" = false := by
  have hraw : ';' ∉ raw.data := by
    intro hm
    have h2 := strContainsSub_semi_iff.mpr hm
    rw [h] at h2
    cases h2
  have hclean : ';' ∉ (cleanedText raw).data := by
    intro hm
    rcases mem_cleanedText hm with h1 | h1
    · exact absurd h1 (by decide)
    · exact hraw h1
  have hc : strContainsSub (cleanedText raw) ";" = false := by
    cases hcc : strContainsSub (cleanedText raw) ";" with
    | false => rfl
    | true => exact absurd (strContainsSub_semi_iff.mp hcc) hclean
  have hres : extract_sql_statement raw
      = ⟨pyStripList (truncAtFirst ['\n', '\n'] (cleanedText raw).data)⟩ := by
    simp only [extract_sql_statement]
    rw [if_neg (by simp [hc])]
  have hmem : ';' ∉ (extract_sql_statement raw).data := by
    rw [hres, data_mk]
    intro hm
    exact hclean (mem_truncAtFirst (pyStripList_subset hm))
  refine ⟨hres, ?_, ?_⟩
  · cases hcc : strContainsSub (extract_sql_statement raw) ";" with
    | false => rfl
    | true => exact absurd (strContainsSub_semi_iff.mp hcc) hmem
  · cases hcc : pyEndsWith (extract_sql_statement raw) ";" with
    | false => rfl
    | true => exact absurd (endsWith_semi_mem hcc) hmem

/-- Witness for C7 amended at the concrete no-terminator input. -/
theorem extract_sql_statement_no_terminator_witness :
    strContainsSub "SELECT 1" ";" = false ∧
    pyEndsWith (extract_sql_statement "SELECT 1") ";" = false :=
  ⟨by decide, (extract_sql_statement_no_terminator "SELECT 1" (by decide)).2.2⟩

/-- C3 counterexample: no line of `"foo"` starts with `SELECT`, yet the
extracted statement is not empty. -/
theorem extract_nonempty_without_select :
    noSelectLine "foo" = true ∧ extract_sql_statement "foo" ≠ "" := by
  refine ⟨by decide, by decide⟩

/-- C3 amended: extraction does not inspect lines for `SELECT`; the extracted
statement is empty exactly when the cleaned text contains no semicolon and
its first blank-line-separated paragraph is whitespace-only. -/
theorem extract_sql_statement_empty_iff (raw : String) :
    extract_sql_statement raw = "" ↔
      strContainsSub (cleanedText raw) ";" = false ∧
        pyStripList (truncAtFirst ['\n', '\n'] (cleanedText raw).data) = [] := by
  have hempty : ∀ t : String, t = "" ↔ t.data = [] := by
    intro t
    constructor
    · intro h2; rw [h2]
    · intro h2
      cases t with
      | mk d => rw [show d = [] from h2]
  by_cases hc : strContainsSub (cleanedText raw) ";" = true
  · have hres : extract_sql_statement raw
        = ⟨pyStripList (truncAtFirst [';'] (cleanedText raw).data) ++ [';']⟩ := by
      simp only [extract_sql_statement]
      rw [if_pos hc]
    constructor
    · intro h2
      rw [hres, hempty, data_mk] at h2
      exact absurd h2 (by simp)
    · rintro ⟨h1, _⟩
      rw [hc] at h1
      cases h1
  · have hcf : strContainsSub (cleanedText raw) ";" = false := by
      revert hc; cases strContainsSub (cleanedText raw) ";" <;> simp
    have hres : extract_sql_statement raw
        = ⟨pyStripList (truncAtFirst ['\n', '\n'] (cleanedText raw).data)⟩ := by
      simp only [extract_sql_statement]
      rw [if_neg hc]
    rw [hres, hempty, data_mk]
    simp [hcf]

/-- C9: a statement starting with `SELECT` that smuggles a blocked keyword
next to punctuation instead of spaces passes both validation checks: the
whole-word scan looks only for `" KEYWORD "` in the space-padded text. -/
theorem validate_sql_keyword_bypass :
    validate_sql "SELECT * FROM t;DROP TABLE u" = .ok () ∧
    "DROP" ∈ BLOCKED_SQL_KEYWORDS ∧
    strContainsSub (pyUpper (pyStrip "SELECT * FROM t;DROP TABLE u")) "DROP" = true := by
  refine ⟨by decide, by decide, by decide⟩

theorem lookupA_insertA_self (k : String) (v : TableSchema) :
    ∀ m : List (String × TableSchema), lookupA k (insertA k v m) = some v := by
  intro m
  induction m with
  | nil => simp [insertA, lookupA]
  | cons p t ih =>
    by_cases hp : p.1 = k
    · simp [insertA, hp, lookupA]
    · simp [insertA, hp, lookupA, ih]

/-- C6 counterexample: starting from a registry whose snapshot holds only
`"old"`, an upsert of `"t"` whose storage write fails mid-dump surfaces the
error, yet get observes the freshly inserted `"t"` entry — which the
previous snapshot did not contain — so the in-memory mapping was not rolled
back; the persisted snapshot is not the previous one either (the truncated
file loads as empty). -/
theorem update_no_rollback_counterexample :
    (update_table_schema
        ⟨[("old", ⟨[("a", "int")], "T0"⟩)], .snapshot [("old", ⟨[("a", "int")], "T0"⟩)]⟩
        "t" [("name", "text")] "T1" .failMidWrite).1 = .error "storage write failed" ∧
    get_table_schema (update_table_schema
        ⟨[("old", ⟨[("a", "int")], "T0"⟩)], .snapshot [("old", ⟨[("a", "int")], "T0"⟩)]⟩
        "t" [("name", "text")] "T1" .failMidWrite).2 "t"
      = some ⟨[("name", "text")], "T1"⟩ ∧
    get_table_schema
        (⟨[("old", ⟨[("a", "int")], "T0"⟩)], .snapshot [("old", ⟨[("a", "int")], "T0"⟩)]⟩ :
          SchemaCacheState) "t" = none ∧
    load_cache (update_table_schema
        ⟨[("old", ⟨[("a", "int")], "T0"⟩)], .snapshot [("old", ⟨[("a", "int")], "T0"⟩)]⟩
        "t" [("name", "text")] "T1" .failMidWrite).2.disk = [] := by
  refine ⟨by decide, by decide, by decide, by decide⟩

/-- C6 amended: when the storage write fails — whether `open` or the dump
raised — the error is surfaced to the caller, but the in-memory mapping is
NOT rolled back: it retains the freshly inserted entry, which exists/get
then observe.  (No disk guarantee is claimed: the file is opened with `'w'`
before the dump, so a mid-write failure corrupts the previous snapshot.) -/
theorem update_table_schema_write_failure (st : SchemaCacheState) (name : String)
    (cols : List (String × String)) (now : String) (w : WriteOutcome) (h : w ≠ .ok) :
    (update_table_schema st name cols now w).1 = .error "storage write failed" ∧
    (update_table_schema st name cols now w).2.mem
        = insertA (pyLower name) ⟨cols, now⟩ st.mem ∧
    table_exists (update_table_schema st name cols now w).2 name = true ∧
    get_table_schema (update_table_schema st name cols now w).2 name
        = some ⟨cols, now⟩ := by
  cases w with
  | ok => exact absurd rfl h
  | failAtOpen =>
    refine ⟨rfl, rfl, ?_, lookupA_insertA_self (pyLower name) ⟨cols, now⟩ st.mem⟩
    show (lookupA (pyLower name) (insertA (pyLower name) ⟨cols, now⟩ st.mem)).isSome = true
    rw [lookupA_insertA_self]
    rfl
  | failMidWrite =>
    refine ⟨rfl, rfl, ?_, lookupA_insertA_self (pyLower name) ⟨cols, now⟩ st.mem⟩
    show (lookupA (pyLower name) (insertA (pyLower name) ⟨cols, now⟩ st.mem)).isSome = true
    rw [lookupA_insertA_self]
    rfl

/-- Witness for C6 amended: the failed-write hypothesis discharged at the
concrete mid-dump failure. -/
theorem update_table_schema_write_failure_witness :
    get_table_schema
        (update_table_schema ⟨[], .snapshot []⟩ "t" [("name", "text")] "T0"
          .failMidWrite).2 "t"
      = some ⟨[("name", "text")], "T0"⟩ :=
  (update_table_schema_write_failure ⟨[], .snapshot []⟩ "t" [("name", "text")] "T0"
    .failMidWrite (by decide)).2.2.2

/-- C2 counterexample: after `create_dynamic_model("T", {"name": "text"})`,
the stored schema returned by get holds exactly the supplied column and no
synthetic identity column. -/
theorem upsert_get_no_identity_counterexample :
    get_table_schema (create_dynamic_model ⟨[], .snapshot []⟩ "T" [("name", "text")] "T0"
        WriteOutcome.ok).2 "t" = some ⟨[("name", "text")], "T0"⟩ ∧
    (get_table_schema (create_dynamic_model ⟨[], .snapshot []⟩ "T" [("name", "text")] "T0"
        WriteOutcome.ok).2
        "t").map (fun sch => (sch.columns.map Prod.fst).contains "id") = some false := by
  refine ⟨by decide, by decide⟩

/-- C2 amended: upsert followed by get — with the lookup name in any letter
case — returns a stored schema holding exactly the supplied columns; the
synthetic identity column is prepended (exactly once, with a caller-supplied
`id` skipped) to the columns of the created database model only, and is not
recorded in the stored schema. -/
theorem create_and_get_schema (st : SchemaCacheState) (name lookupName : String)
    (cols : List (String × String)) (now : String)
    (h : pyLower lookupName = pyLower name) :
    (create_dynamic_model st name cols now .ok).1 = .ok (create_model_columns cols) ∧
    get_table_schema (create_dynamic_model st name cols now .ok).2 lookupName
        = some ⟨cols, now⟩ ∧
    ((create_model_columns cols).map Prod.fst).count "id" = 1 ∧
    (create_model_columns cols).head? = some ("id", "Integer") := by
  refine ⟨rfl, ?_, ?_, rfl⟩
  · show lookupA (pyLower lookupName) (insertA (pyLower name) ⟨cols, now⟩ st.mem)
        = some ⟨cols, now⟩
    rw [h]
    exact lookupA_insertA_self (pyLower name) ⟨cols, now⟩ st.mem
  · have hnames : (create_model_columns cols).map Prod.fst
        = "id" :: ((cols.filter (fun p => pyLower p.1 ≠ "id")).map
            (fun p => (p.1, map_type p.2))).map Prod.fst := rfl
    have h0 : ("id" : String) ∉ ((cols.filter (fun p => pyLower p.1 ≠ "id")).map
        (fun p => (p.1, map_type p.2))).map Prod.fst := by
      intro hmem
      rcases List.mem_map.mp hmem with ⟨q, hq, hfst⟩
      rcases List.mem_map.mp hq with ⟨r, hr, hqr⟩
      have hfilter := List.mem_filter.mp hr
      have hid : pyLower r.1 ≠ "id" := by simpa using hfilter.2
      have hr1 : r.1 = "id" := by rw [← hqr] at hfst; exact hfst
      rw [hr1] at hid
      exact hid (by decide)
    rw [hnames, List.count_cons_self, List.count_eq_zero.mpr h0]

/-- Witness for C2 amended: a create on `"Students"` is visible to a get on
`"STUDENTS"` with exactly the supplied column stored. -/
theorem create_and_get_schema_witness :
    get_table_schema
        (create_dynamic_model ⟨[], .snapshot []⟩ "Students" [("name", "text")] "T0"
          WriteOutcome.ok).2 "STUDENTS"
        = some ⟨[("name", "text")], "T0"⟩ :=
  (create_and_get_schema ⟨[], .snapshot []⟩ "Students" "STUDENTS" [("name", "text")] "T0"
    (by decide)).2.1

theorem any_id_eq_contains (l : List (String × String)) :
    l.any (fun c => c.1 = "id") = ((l.map Prod.fst).contains "id") := by
  induction l with
  | nil => rfl
  | cons p t ih =>
    rw [List.any_cons, List.map_cons, List.contains_cons, ← ih]
    congr 1
    have hb : ("id" == p.1) = decide ("id" = p.1) := rfl
    rw [hb, decide_eq_decide]
    exact eq_comm

/-- C8: the inferrer loop equals the claim's description of it on every
resolved schema list; whenever every requested table is present the
operation succeeds (never raises); and on `students(id, college_id)` with
`colleges(id)` it emits exactly the single forward edge. -/
theorem infer_relationships_spec :
    (∀ schemas, inferCode schemas = inferSpec schemas) ∧
    (∀ (st : SchemaCacheState) (names : List String),
        (∀ t ∈ names, table_exists st t = true) →
        ∃ edges, infer_relationships st names = some edges) ∧
    infer_relationships
        ⟨[("students", ⟨[("id", "int"), ("college_id", "int")], "T0"⟩),
          ("colleges", ⟨[("id", "int")], "T0"⟩)], .snapshot []⟩
        ["students", "colleges"]
      = some ["students.college_id → colleges.id"] := by
  refine ⟨?_, ?_, by decide⟩
  · intro schemas
    unfold inferCode inferSpec
    refine List.flatMap_congr (fun srcp hsrc => ?_)
    rw [List.flatMap_map]
    refine List.flatMap_congr (fun colp hcol => ?_)
    by_cases he : pyEndsWith colp.1 "_id" = true
    · rw [if_pos he, if_pos he]
      refine List.flatMap_congr (fun dstp hdst => ?_)
      by_cases h1 : dstp.1 = srcp.1
      · rw [if_neg (by simp [h1]), if_neg (by simp [h1])]
      · by_cases h2 : dstp.2.columns.any (fun c => c.1 = "id") = true
        · have hcon : ((dstp.2.columns.map Prod.fst).contains "id") = true := by
            rw [← any_id_eq_contains]; exact h2
          by_cases h3 : pyLower (strTake colp.1 (colp.1.data.length - 3) ++ "s")
              = pyLower dstp.1
          · rw [if_pos ⟨h1, h2⟩, if_pos h3, if_pos ⟨h3, h1, hcon⟩]
          · rw [if_pos ⟨h1, h2⟩, if_neg h3, if_neg (fun hh => h3 hh.1)]
        · have hcon : ¬ ((dstp.2.columns.map Prod.fst).contains "id") = true := by
            rw [← any_id_eq_contains]; exact h2
          rw [if_neg (fun hh => h2 hh.2), if_neg (fun hh => hcon hh.2.2)]
    · rw [if_neg he, if_neg he]
  · intro st names
    induction names with
    | nil => intro _; exact ⟨inferCode [], rfl⟩
    | cons t ts ih =>
      intro h
      have ht : table_exists st t = true := h t (List.mem_cons_self _ _)
      rcases ih (fun x hx => h x (List.mem_cons_of_mem _ hx)) with ⟨edges, he⟩
      rcases Option.map_eq_some'.mp he with ⟨rest, hrest, _⟩
      rcases Option.isSome_iff_exists.mp ht with ⟨s, hs⟩
      have hs2 : get_table_schema st t = some s := hs
      refine ⟨inferCode ((t, s) :: rest), ?_⟩
      simp [infer_relationships, collectSchemas, hs2, hrest]

/-- Witness for C8: the presence hypothesis discharged at the concrete
students/colleges registry. -/
theorem infer_relationships_spec_witness :
    ∃ edges, infer_relationships
        ⟨[("students", ⟨[("id", "int"), ("college_id", "int")], "T0"⟩),
          ("colleges", ⟨[("id", "int")], "T0"⟩)], .snapshot []⟩
        ["students", "colleges"] = some edges :=
  infer_relationships_spec.2.1 _ _ (by decide)

theorem sqDist_self (v : List ℚ) : sqDist v v = 0 := by
  induction v with
  | nil => rfl
  | cons a t ih =>
    have ih2 : (List.zipWith (fun a b => (a - b) ^ 2) t t).sum = 0 := ih
    show ((a - a) ^ 2 :: List.zipWith (fun a b => (a - b) ^ 2) t t).sum = 0
    rw [List.sum_cons, ih2, sub_self]
    norm_num

theorem scanCandidates_mode {cache : List CacheEntry} {flag : Bool} {th : ℚ} :
    ∀ {cands : List (Nat × ℚ)} {e : CacheEntry},
      scanCandidates cache flag th cands = some e → e.explain_flag = flag := by
  intro cands
  induction cands with
  | nil => intro e h; simp [scanCandidates] at h
  | cons p rest ih =>
    intro e h
    rcases p with ⟨idx, dist⟩
    cases hg : cache[idx]? with
    | none =>
      simp only [scanCandidates, hg] at h
      exact Option.noConfusion h
    | some entry =>
      simp only [scanCandidates, hg] at h
      by_cases hb : entry.explain_flag != flag
      · rw [if_pos hb] at h; exact ih h
      · rw [if_neg hb] at h
        by_cases ht : th ≤ 1 / (1 + dist)
        · rw [if_pos ht] at h
          injection h with he
          have hbf : entry.explain_flag = flag := by
            revert hb; cases entry.explain_flag <;> cases flag <;> simp
          rw [← he]; exact hbf
        · rw [if_neg ht] at h; exact ih h

/-- C4: after a plain-mode add, a search with identical question text in
explain mode misses while a plain-mode search returns the stored entry; in
general a search never returns an entry whose stored mode flag differs from
the requested mode. -/
theorem search_mode_partition (embed : String → List ℚ) (q sql : String) (rows : Rows) :
    searchCache embed (addCache embed emptyCache q sql rows none false) q true (87/100) 3
        = none ∧
    searchCache embed (addCache embed emptyCache q sql rows none false) q false (87/100) 3
        = some ⟨q, sql, rows, none, false⟩ ∧
    (∀ (c : SemanticCache) (q2 : String) (mode : Bool) (th : ℚ) (k : Nat) (e : CacheEntry),
        searchCache embed c q2 mode th k = some e → e.explain_flag = mode) := by
  refine ⟨rfl, ?_, ?_⟩
  · have hd : sqDist (embed (cacheKey q false)) (embed (cacheKey q false)) = 0 :=
      sqDist_self _
    have h2 : searchCache embed (addCache embed emptyCache q sql rows none false) q false
          (87/100) 3
        = scanCandidates [⟨q, sql, rows, none, false⟩] false (87/100)
            [(0, sqDist (embed (cacheKey q false)) (embed (cacheKey q false)))] := rfl
    rw [h2, hd]
    norm_num [scanCandidates]
  · intro c q2 mode th k e h
    by_cases hz : c.index.length = 0
    · unfold searchCache at h
      rw [if_pos hz] at h
      exact Option.noConfusion h
    · unfold searchCache at h
      rw [if_neg hz] at h
      exact scanCandidates_mode h

/-- Witness for C4: the mode-filter hypothesis discharged by the concrete
plain-mode hit produced by the theorem itself. -/
theorem search_mode_partition_witness :
    (⟨"How many users?", "SELECT COUNT(*) FROM users;", [], none, false⟩ :
        CacheEntry).explain_flag = false :=
  (search_mode_partition (fun _ => [0]) "How many users?" "SELECT COUNT(*) FROM users;"
      []).2.2
    (addCache (fun _ => [0]) emptyCache "How many users?" "SELECT COUNT(*) FROM users;"
      [] none false)
    "How many users?" false (87/100) 3 _
    (search_mode_partition (fun _ => [0]) "How many users?" "SELECT COUNT(*) FROM users;"
      []).2.1

theorem mem_insertByDist {x b : Nat × ℚ} :
    ∀ {l : List (Nat × ℚ)}, b ∈ insertByDist x l → b = x ∨ b ∈ l := by
  intro l
  induction l with
  | nil =>
    intro h
    simp [insertByDist] at h
    exact Or.inl h
  | cons y t ih =>
    intro h
    by_cases hxy : x.2 ≤ y.2
    · rw [insertByDist, if_pos hxy] at h
      rcases List.mem_cons.mp h with h | h
      · exact Or.inl h
      · exact Or.inr h
    · rw [insertByDist, if_neg hxy] at h
      rcases List.mem_cons.mp h with h | h
      · exact Or.inr (h ▸ List.mem_cons_self y t)
      · rcases ih h with h2 | h2
        · exact Or.inl h2
        · exact Or.inr (List.mem_cons_of_mem _ h2)

theorem mem_sortByDist {b : Nat × ℚ} :
    ∀ {l : List (Nat × ℚ)}, b ∈ sortByDist l → b ∈ l := by
  intro l
  induction l with
  | nil => intro h; simp [sortByDist] at h
  | cons x t ih =>
    intro h
    rw [sortByDist] at h
    rcases mem_insertByDist h with h2 | h2
    · exact h2 ▸ List.mem_cons_self x t
    · exact List.mem_cons_of_mem _ (ih h2)

theorem insertByDist_pairwise {x : Nat × ℚ} :
    ∀ {l : List (Nat × ℚ)}, l.Pairwise (fun a b => a.2 ≤ b.2) →
      (insertByDist x l).Pairwise (fun a b => a.2 ≤ b.2) := by
  intro l
  induction l with
  | nil => intro _; simp [insertByDist]
  | cons y t ih =>
    intro hl
    rcases List.pairwise_cons.mp hl with ⟨hy, ht⟩
    by_cases hxy : x.2 ≤ y.2
    · rw [insertByDist, if_pos hxy]
      refine List.pairwise_cons.mpr ⟨?_, hl⟩
      intro b hb
      rcases List.mem_cons.mp hb with hb | hb
      · exact hb ▸ hxy
      · exact le_trans hxy (hy b hb)
    · rw [insertByDist, if_neg hxy]
      refine List.pairwise_cons.mpr ⟨?_, ih ht⟩
      intro b hb
      rcases mem_insertByDist hb with hb2 | hb2
      · exact hb2 ▸ le_of_not_le hxy
      · exact hy b hb2

theorem sortByDist_pairwise :
    ∀ (l : List (Nat × ℚ)), (sortByDist l).Pairwise (fun a b => a.2 ≤ b.2) := by
  intro l
  induction l with
  | nil => simp [sortByDist]
  | cons x t ih =>
    rw [sortByDist]
    exact insertByDist_pairwise ih

theorem knn_mem_exists (index : List (List ℚ)) (v : List ℚ) (k : Nat) :
    ∀ p ∈ knn index v k, ∃ u, index[p.1]? = some u ∧ p.2 = sqDist v u := by
  intro p hp
  have hp2 : p ∈ sortByDist (index.enum.map (fun q => (q.1, sqDist v q.2))) :=
    (List.take_sublist k _).subset hp
  have hp3 : p ∈ index.enum.map (fun q => (q.1, sqDist v q.2)) := mem_sortByDist hp2
  rcases List.mem_map.mp hp3 with ⟨q0, hq0, hpq⟩
  rcases q0 with ⟨i, u⟩
  have hmem := List.mem_enum hq0
  subst hpq
  refine ⟨u, ?_, rfl⟩
  rw [List.getElem?_eq_getElem hmem.1, ← hmem.2]

theorem scanCandidates_eq_find {store : List CacheEntry} {flag : Bool} {th : ℚ} :
    ∀ {cands : List (Nat × ℚ)}, (∀ p ∈ cands, (store[p.1]?).isSome = true) →
      scanCandidates store flag th cands
        = (cands.find? (qualifiesB store flag th)).bind (fun p => store[p.1]?) := by
  intro cands
  induction cands with
  | nil => intro _; rfl
  | cons p rest ih =>
    intro hall
    rcases p with ⟨idx, dist⟩
    have hs : (store[idx]?).isSome = true := hall _ (List.mem_cons_self _ _)
    rcases Option.isSome_iff_exists.mp hs with ⟨entry, hg⟩
    have hrest := ih (fun p hp => hall p (List.mem_cons_of_mem _ hp))
    by_cases hb : entry.explain_flag != flag
    · have hfe : (entry.explain_flag == flag) = false := by
        revert hb; cases entry.explain_flag <;> cases flag <;> simp
      have hqf : qualifiesB store flag th (idx, dist) = false := by
        simp [qualifiesB, hg, hfe]
      have hL : scanCandidates store flag th ((idx, dist) :: rest)
          = scanCandidates store flag th rest := by
        simp only [scanCandidates, hg]
        rw [if_pos hb]
      rw [hL, hrest, List.find?_cons_of_neg _ (by simp [hqf])]
    · have hfe : (entry.explain_flag == flag) = true := by
        revert hb; cases entry.explain_flag <;> cases flag <;> simp
      by_cases ht : th ≤ 1 / (1 + dist)
      · have hqt : qualifiesB store flag th (idx, dist) = true := by
          simp [qualifiesB, hg, hfe]
          simpa using ht
        have hL : scanCandidates store flag th ((idx, dist) :: rest) = some entry := by
          simp only [scanCandidates, hg]
          rw [if_neg hb, if_pos ht]
        rw [hL, List.find?_cons_of_pos _ hqt]
        simp [hg]
      · have hqf : qualifiesB store flag th (idx, dist) = false := by
          simp [qualifiesB, hg, hfe]
          simpa using lt_of_not_le ht
        have hL : scanCandidates store flag th ((idx, dist) :: rest)
            = scanCandidates store flag th rest := by
          simp only [scanCandidates, hg]
          rw [if_neg hb, if_neg ht]
        rw [hL, hrest, List.find?_cons_of_neg _ (by simp [hqf])]

theorem searchCache_eq_find (embed : String → List ℚ) (c : SemanticCache) (q : String)
    (mode : Bool) (th : ℚ) (k : Nat) (halign : c.cache.length = c.index.length) :
    searchCache embed c q mode th k
      = ((knn c.index (embed (cacheKey q mode)) k).find? (qualifiesB c.cache mode th)).bind
          (fun p => c.cache[p.1]?) := by
  by_cases hz : c.index.length = 0
  · have hidx : c.index = [] := List.length_eq_zero.mp hz
    have hk : knn c.index (embed (cacheKey q mode)) k = [] := by
      rw [hidx]
      simp [knn, sortByDist]
    unfold searchCache
    rw [if_pos hz, hk]
    rfl
  · unfold searchCache
    rw [if_neg hz]
    apply scanCandidates_eq_find
    intro p hp
    rcases knn_mem_exists c.index (embed (cacheKey q mode)) k p hp with ⟨u, hu, _⟩
    rcases List.getElem?_eq_some.mp hu with ⟨hlt, _⟩
    have hlt2 : p.1 < c.cache.length := by rw [halign]; exact hlt
    rw [List.getElem?_eq_getElem hlt2]
    rfl

/-- C5: an empty index always misses; whenever the index and the store are
aligned, search equals "look up the entry of the FIRST candidate, in the
ascending-distance order of the k nearest stored vectors, whose stored mode
matches and whose similarity `1/(1+d)` is at or above the threshold, else
miss" — in particular any qualifying candidate among the k nearest forces a
hit; any returned entry is such a qualifying candidate; and a candidate
whose similarity equals the `0.87` threshold exactly is returned while one
strictly below it is not. -/
theorem searchCache_semantics :
    (∀ (embed : String → List ℚ) (c : SemanticCache) (q : String) (mode : Bool)
        (th : ℚ) (k : Nat), c.index = [] → searchCache embed c q mode th k = none) ∧
    (∀ (embed : String → List ℚ) (c : SemanticCache) (q : String) (mode : Bool)
        (th : ℚ) (k : Nat), c.cache.length = c.index.length →
        searchCache embed c q mode th k
          = ((knn c.index (embed (cacheKey q mode)) k).find?
                (qualifiesB c.cache mode th)).bind (fun p => c.cache[p.1]?)) ∧
    (∀ (embed : String → List ℚ) (c : SemanticCache) (q : String) (mode : Bool)
        (th : ℚ) (k : Nat), c.cache.length = c.index.length →
        ∀ p ∈ knn c.index (embed (cacheKey q mode)) k,
          qualifiesB c.cache mode th p = true →
          ∃ e, searchCache embed c q mode th k = some e) ∧
    (∀ (store : List CacheEntry) (flag : Bool) (th : ℚ) (cands : List (Nat × ℚ))
        (e : CacheEntry),
        scanCandidates store flag th cands = some e →
        ∃ p ∈ cands, store[p.1]? = some e ∧ e.explain_flag = flag ∧ th ≤ 1 / (1 + p.2)) ∧
    (∀ (index : List (List ℚ)) (v : List ℚ) (k : Nat),
        (knn index v k).Pairwise (fun a b => a.2 ≤ b.2) ∧
        ∀ p ∈ knn index v k, ∃ u, index[p.1]? = some u ∧ p.2 = sqDist v u) ∧
    1 / (1 + sqDist (embA (cacheKey "q" false)) (embA (cacheKey "p" false))) = 87/100 ∧
    searchCache embA (addCache embA emptyCache "p" "SELECT 1;" [] none false)
        "q" false (87/100) 3 = some ⟨"p", "SELECT 1;", [], none, false⟩ ∧
    1 / (1 + sqDist (embB (cacheKey "q" false)) (embB (cacheKey "p" false))) < 87/100 ∧
    searchCache embB (addCache embB emptyCache "p" "SELECT 1;" [] none false)
        "q" false (87/100) 3 = none := by
  have hq : ("q" : String) = "p" ↔ False := by simp
  refine ⟨?_, ?_, ?_, ?_, ?_, ?_, ?_, ?_, ?_⟩
  · intro embed c q mode th k h
    unfold searchCache
    rw [if_pos (by rw [h]; rfl)]
  · intro embed c q mode th k halign
    exact searchCache_eq_find embed c q mode th k halign
  · intro embed c q mode th k halign p hp hq2
    rw [searchCache_eq_find embed c q mode th k halign]
    have hfs : ((knn c.index (embed (cacheKey q mode)) k).find?
        (qualifiesB c.cache mode th)).isSome = true :=
      List.find?_isSome.mpr ⟨p, hp, hq2⟩
    rcases Option.isSome_iff_exists.mp hfs with ⟨p0, hp0⟩
    have hq0 : qualifiesB c.cache mode th p0 = true := List.find?_some hp0
    cases hcase : c.cache[p0.1]? with
    | none => simp [qualifiesB, hcase] at hq0
    | some entry =>
      refine ⟨entry, ?_⟩
      rw [hp0]
      simp [hcase]
  · intro store flag th cands
    induction cands with
    | nil =>
      intro e h
      simp [scanCandidates] at h
    | cons p rest ih =>
      intro e h
      rcases p with ⟨idx, dist⟩
      cases hg : store[idx]? with
      | none =>
        simp only [scanCandidates, hg] at h
        exact Option.noConfusion h
      | some entry =>
        simp only [scanCandidates, hg] at h
        by_cases hb : entry.explain_flag != flag
        · rw [if_pos hb] at h
          rcases ih e h with ⟨p2, hp2, hrest⟩
          exact ⟨p2, List.mem_cons_of_mem _ hp2, hrest⟩
        · rw [if_neg hb] at h
          by_cases ht : th ≤ 1 / (1 + dist)
          · rw [if_pos ht] at h
            injection h with he
            refine ⟨(idx, dist), List.mem_cons_self _ _, ?_, ?_, ht⟩
            · rw [← he]; exact hg
            · rw [← he]
              revert hb
              cases entry.explain_flag <;> cases flag <;> simp
          · rw [if_neg ht] at h
            rcases ih e h with ⟨p2, hp2, hrest⟩
            exact ⟨p2, List.mem_cons_of_mem _ hp2, hrest⟩
  · intro index v k
    exact ⟨List.Pairwise.sublist (List.take_sublist k _) (sortByDist_pairwise _),
      knn_mem_exists index v k⟩
  · norm_num [embA, cacheKey, sqDist, List.zipWith, hq]
  · norm_num [searchCache, addCache, emptyCache, knn, sortByDist, insertByDist,
      scanCandidates, sqDist, cacheKey, embA, List.enum, hq, List.zipWith]
  · norm_num [embB, cacheKey, sqDist, List.zipWith, hq]
  · norm_num [searchCache, addCache, emptyCache, knn, sortByDist, insertByDist,
      scanCandidates, sqDist, cacheKey, embB, List.enum, hq, List.zipWith]

/-- Witness for C5: every hypothesis of the theorem discharged at concrete
inputs — the empty index, the aligned one-entry cache (where the
first-qualifying characterization evaluates to the stored entry), a
qualifying candidate forcing a hit, and a concrete successful scan. -/
theorem searchCache_semantics_witness :
    searchCache (fun _ => ([] : List ℚ)) emptyCache "x" false (87/100) 3 = none ∧
    searchCache (fun _ => ([0] : List ℚ))
        (addCache (fun _ => ([0] : List ℚ)) emptyCache "p" "SELECT 1;" [] none false)
        "p" false (87/100) 3 = some ⟨"p", "SELECT 1;", [], none, false⟩ ∧
    (∃ e, searchCache (fun _ => ([0] : List ℚ))
        (addCache (fun _ => ([0] : List ℚ)) emptyCache "p" "SELECT 1;" [] none false)
        "p" false (87/100) 3 = some e) ∧
    ∃ p ∈ [((0 : Nat), (0 : ℚ))],
      [(⟨"a", "SELECT 1;", [], none, false⟩ : CacheEntry)][p.1]?
          = some ⟨"a", "SELECT 1;", [], none, false⟩ ∧
      (⟨"a", "SELECT 1;", [], none, false⟩ : CacheEntry).explain_flag = false ∧
      (87/100 : ℚ) ≤ 1 / (1 + p.2) := by
  refine ⟨?_, ?_, ?_, ?_⟩
  · exact searchCache_semantics.1 (fun _ => []) emptyCache "x" false (87/100) 3 rfl
  · exact (searchCache_semantics.2.1 (fun _ => ([0] : List ℚ))
        (addCache (fun _ => ([0] : List ℚ)) emptyCache "p" "SELECT 1;" [] none false)
        "p" false (87/100) 3 rfl).trans
      (by norm_num [knn, addCache, emptyCache, cacheKey, sortByDist, insertByDist,
        sqDist, qualifiesB, List.enum, List.zipWith])
  · exact searchCache_semantics.2.2.1 (fun _ => ([0] : List ℚ))
      (addCache (fun _ => ([0] : List ℚ)) emptyCache "p" "SELECT 1;" [] none false)
      "p" false (87/100) 3 rfl ((0 : Nat), (0 : ℚ))
      (by norm_num [knn, addCache, emptyCache, cacheKey, sortByDist, insertByDist,
        sqDist, List.enum, List.zipWith])
      (by norm_num [qualifiesB, addCache, emptyCache])
  · exact searchCache_semantics.2.2.2.1 [⟨"a", "SELECT 1;", [], none, false⟩] false
      (87/100) [((0 : Nat), (0 : ℚ))] ⟨"a", "SELECT 1;", [], none, false⟩
      (by norm_num [scanCandidates])

/-- C10: because the mode filter runs only after truncating to the `k = 3`
nearest vectors, a cache can store a plain-mode entry whose similarity
(here `100/101`) is above the `0.87` threshold and still miss a plain-mode
search, when the three nearest vectors all belong to explain mode. -/
theorem search_k_truncation_miss :
    searchCache embedTenth crowdedCache "q" false (87/100) 3 = none ∧
    (∃ (i : Nat) (e : CacheEntry) (v : List ℚ),
      crowdedCache.cache[i]? = some e ∧ e.explain_flag = false ∧
      crowdedCache.index[i]? = some v ∧
      (87/100 : ℚ) ≤ 1 / (1 + sqDist (embedTenth (cacheKey "q" false)) v)) := by
  have hq : ("q" : String) = "p" ↔ False := by simp
  have ha : (("a" : String) ++ " [EXPLAIN]") = "p" ↔ False := by simp
  have hb : (("b" : String) ++ " [EXPLAIN]") = "p" ↔ False := by simp
  have hc : (("c" : String) ++ " [EXPLAIN]") = "p" ↔ False := by simp
  constructor
  · norm_num [searchCache, addCache, emptyCache, knn, sortByDist, insertByDist,
      scanCandidates, sqDist, cacheKey, embedTenth, crowdedCache, List.enum,
      List.zipWith, hq, ha, hb, hc]
  · refine ⟨3, ⟨"p", "SP", [], none, false⟩, [1/10, 0, 0, 0], ?_, rfl, ?_, ?_⟩
    · norm_num [crowdedCache, addCache, emptyCache]
    · norm_num [crowdedCache, addCache, emptyCache, embedTenth, cacheKey]
    · norm_num [sqDist, embedTenth, cacheKey, List.zipWith, hq]
